import Mathlib

/-!
Verification of the function-calling benchmark and FastAPI backend
(`benchmark.py`, `server.py`): a shallow embedding of the scoring
functions (`_normalize`, `_call_matches`, `compute_f1`,
`compute_total_score`), the keyword fallback, argument enrichment and the
two request-handling endpoints, together with theorems about them.

Python dicts are modelled as association lists with unique keys
(lookup is first-match); floats are modelled as rationals; wall-clock
readings, the regex search primitive, the per-tool regex extractor family
and the mock tool executor are oracle parameters, since their values are
nondeterministic or produced by the Python `re` library, which this
embedding treats as opaque.
-/

/-- A JSON-like scalar argument value: the benchmark's expected calls use
strings and integers. -/
inductive Value where
  | vStr (s : String)
  | vInt (n : Int)
deriving DecidableEq, Repr

/-- An arguments mapping (Python dict with string keys): association list,
keys unique, lookup takes the first binding. -/
abbrev Args := List (String × Value)

/-- Python `str.lower()` (ASCII case folding), defined structurally over
the character list so that concrete instances evaluate. -/
def pyLower (s : String) : String := ⟨s.data.map Char.toLower⟩

/-- Python `str.strip()`: drop leading and trailing whitespace, defined
structurally over the character list so that concrete instances
evaluate. -/
def pyStrip (s : String) : String :=
  ⟨((s.data.dropWhile Char.isWhitespace).reverse.dropWhile
      Char.isWhitespace).reverse⟩

/-- `_normalize` (benchmark.py): strings compare stripped and lower-cased,
anything else compares raw. Python does `v.strip().lower()`. -/
def _normalize : Value → Value
  | .vStr s => .vStr (pyLower (pyStrip s))
  | v => v

/-- A function call: tool name plus arguments mapping. -/
structure Call where
  name : String
  arguments : Args
deriving DecidableEq, Repr

/-- `_call_matches` (benchmark.py): names equal, and every expected
argument key present in the predicted call with a `_normalize`-equal
value. Extra predicted keys are ignored; a missing expected key fails. -/
def _call_matches (predicted expected : Call) : Bool :=
  predicted.name == expected.name &&
  expected.arguments.all fun kv =>
    match predicted.arguments.lookup kv.1 with
    | some v => _normalize v == _normalize kv.2
    | none => false

/-- The inner loop of `compute_f1`: `enumerate(predicted_calls)` with
`break`, skipping indices already in `used`; returns the index of the
first not-yet-used predicted call matching `e`. -/
def findFirstUnused (used : List Nat) (e : Call) : List Call → Nat → Option Nat
  | [], _ => none
  | p :: ps, i =>
    if !used.contains i && _call_matches p e then some i
    else findFirstUnused used e ps (i + 1)

/-- The outer loop of `compute_f1`: for each expected call in order, take
the first unused matching predicted index, mark it used, count it. -/
def matchedLoop (predicted : List Call) : List Call → List Nat → Nat
  | [], _ => 0
  | e :: es, used =>
    match findFirstUnused used e predicted 0 with
    | some i => 1 + matchedLoop predicted es (i :: used)
    | none => matchedLoop predicted es used

/-- `compute_f1` (benchmark.py): 1.0 if both lists empty, 0.0 if exactly
one is, else the harmonic mean of precision and recall of the greedy
matched count (0.0 when precision + recall is 0). -/
def compute_f1 (predicted_calls expected_calls : List Call) : ℚ :=
  if predicted_calls.isEmpty && expected_calls.isEmpty then 1
  else if predicted_calls.isEmpty || expected_calls.isEmpty then 0
  else
    let matched : ℚ := (matchedLoop predicted_calls expected_calls [] : ℕ)
    let precision : ℚ := matched / (predicted_calls.length : ℚ)
    let recall' : ℚ := matched / (expected_calls.length : ℚ)
    if precision + recall' = 0 then 0
    else 2 * precision * recall' / (precision + recall')

/-! Reference definitions written from the spec's words ("for each
expected call in order, find the first not-yet-used predicted call that
matches; mark it used"): marking a predicted call used is rendered as
removing it from the pool of available predicted calls. -/

/-- Remove the first call of the pool that matches `e`; `none` when no
call of the pool matches. -/
def removeFirstMatch (e : Call) : List Call → Option (List Call)
  | [] => none
  | p :: ps =>
    if _call_matches p e then some ps
    else (removeFirstMatch e ps).map (p :: ·)

/-- Matched count per the spec's words: fold over `expected` in order,
each expected call consuming the first still-available matching
predicted call. -/
def specMatched (predicted : List Call) : List Call → Nat
  | [] => 0
  | e :: es =>
    match removeFirstMatch e predicted with
    | some rest => 1 + specMatched rest es
    | none => specMatched predicted es

/-- Reference `f1` per the spec's words, on top of `specMatched`. -/
def compute_f1_spec (predicted expected : List Call) : ℚ :=
  if predicted = [] ∧ expected = [] then 1
  else if predicted = [] ∨ expected = [] then 0
  else
    let m : ℚ := (specMatched predicted expected : ℕ)
    let p : ℚ := m / (predicted.length : ℚ)
    let r : ℚ := m / (expected.length : ℚ)
    if p + r = 0 then 0 else 2 * p * r / (p + r)

/-- The pool of predicted calls still available to the index-based loop:
those whose index (counted from `i`) is not in `used`. -/
def availFrom (used : List Nat) : List Call → Nat → List Call
  | [], _ => []
  | p :: ps, i =>
    if used.contains i then availFrom used ps (i + 1)
    else p :: availFrom used ps (i + 1)

/-- Two expected calls overlap on a predicted pool when some predicted
call of the pool matches both. -/
def overlapping (preds : List Call) (a b : Call) : Prop :=
  ∃ p ∈ preds, _call_matches p a = true ∧ _call_matches p b = true

instance (preds : List Call) (a b : Call) : Decidable (overlapping preds a b) := by
  unfold overlapping; infer_instance

/-! ### Composite benchmark score (`compute_total_score`, benchmark.py) -/

/-- One row of the `results` list `run_benchmark` builds (the `predicted`
and `expected` entries are never read by the scoring code). -/
structure CaseResult where
  name : String
  difficulty : String
  total_time_ms : ℚ
  f1 : ℚ
  source : String
deriving Repr

/-- `difficulty_weights` (benchmark.py). -/
def difficulty_weights : List (String × ℚ) := [("easy", 0.20), ("medium", 0.30), ("hard", 0.50)]

/-- `time_baseline_ms` (benchmark.py): anything under this gets full marks. -/
def time_baseline_ms : ℚ := 500

/-- `time_score` as computed inside `compute_total_score`. -/
def time_score (avg_time : ℚ) : ℚ := max 0 (1 - avg_time / time_baseline_ms)

/-- `level_score` as computed inside `compute_total_score`. -/
def level_score (avg_f1 ts on_device_ratio : ℚ) : ℚ :=
  0.60 * avg_f1 + 0.15 * ts + 0.25 * on_device_ratio

/-- One iteration of the loop of `compute_total_score`: skip an absent
tier, otherwise add the weighted tier score to the accumulator. -/
def score_step (results : List CaseResult) (total_score : ℚ) (dw : String × ℚ) : ℚ :=
  let group := results.filter (fun r => r.difficulty == dw.1)
  if group.isEmpty then total_score
  else
    let avg_f1 := (group.map (fun r => r.f1)).sum / (group.length : ℚ)
    let avg_time := (group.map (fun r => r.total_time_ms)).sum / (group.length : ℚ)
    let on_device_ratio :=
      ((group.filter (fun r => r.source == "on-device")).length : ℚ) / (group.length : ℚ)
    total_score + dw.2 * level_score avg_f1 (time_score avg_time) on_device_ratio

/-- `compute_total_score` (benchmark.py). -/
def compute_total_score (results : List CaseResult) : ℚ :=
  (difficulty_weights.foldl (score_step results) 0) * 100

/-- Tier score written from the spec's words: `0.60*avg_f1 +
0.15*time_score + 0.25*on_device_ratio` with `time_score = max(0, 1 -
avg_latency_ms/500)`, arithmetic means over the tier's cases and the
on-device fraction. -/
def spec_tier_score (results : List CaseResult) (tier : String) : ℚ :=
  let group := results.filter (fun r => r.difficulty == tier)
  0.60 * ((group.map (fun r => r.f1)).sum / (group.length : ℚ))
    + 0.15 * (max 0 (1 - ((group.map (fun r => r.total_time_ms)).sum / (group.length : ℚ)) / 500))
    + 0.25 * (((group.filter (fun r => r.source == "on-device")).length : ℚ) / (group.length : ℚ))

/-- Total score written from the spec's words: 100 times the sum, over
the tiers easy/medium/hard that are present in the results, of
`tier_weight * tier_score` (absent tiers skipped, weights not
renormalized). -/
def spec_total_score (results : List CaseResult) : ℚ :=
  100 * ((([("easy", (0.20 : ℚ)), ("medium", 0.30), ("hard", 0.50)]).filter
      (fun dw => !(results.filter (fun r => r.difficulty == dw.1)).isEmpty)).map
      (fun dw => dw.2 * spec_tier_score results dw.1)).sum

/-! ### Server embedding (`server.py`)

The regex search primitive (`re.search`), the per-tool regex argument
extractors (`_extract_*_args`), the mock tool executor (whose results
carry fresh uuids), wall-clock readings and the transcription outcome
are oracle parameters of the embedded operations. -/

/-- Python `str()` of an argument value. -/
def pyStr : Value → String
  | .vStr s => s
  | .vInt n => toString n

/-- Python falsiness (`not existing`) of an argument value: the empty
string and the integer zero are falsy. -/
def isFalsy : Value → Bool
  | .vStr s => s == ""
  | .vInt n => n == 0

/-- `_DEFAULT_VALUES` (server.py): values indicating the model returned
empty/default args. -/
def _DEFAULT_VALUES : List String := ["", "Customer", "Locksmith Service", "unknown", "none", "N/A"]

/-- The overwrite test of `_enrich_arguments`:
`not existing or str(existing).strip() in _DEFAULT_VALUES`. -/
def default_like (existing : Value) : Bool :=
  isFalsy existing || _DEFAULT_VALUES.contains (pyStrip (pyStr existing))

/-- Python dict assignment `args[key] = value`: replace the first binding
in place, or append a new binding. -/
def dictSet : Args → String → Value → Args
  | [], k, v => [(k, v)]
  | (k', v') :: rest, k, v =>
    if k' == k then (k', v) :: rest else (k', v') :: dictSet rest k v

/-- One iteration of the loop of `_enrich_arguments`: overwrite the
argument at the extracted key only when the existing value (defaulted to
`""` when absent) is falsy or a known placeholder. -/
def enrich_step (acc : Args) (kv : String × Value) : Args :=
  let existing : Value := (acc.lookup kv.1).getD (.vStr "")
  if default_like existing then dictSet acc kv.1 kv.2 else acc

/-- `_enrich_arguments` (server.py), parametric in the extractor table
(`_EXTRACTORS` maps a tool name to its regex extractor; extractors are
oracles here). Returns the arguments unchanged when no rule exists. -/
def _enrich_arguments (extractors : String → Option (String → Args))
    (name : String) (args : Args) (user_text : String) : Args :=
  match extractors name with
  | none => args
  | some extractor =>
    let extracted := extractor user_text
    extracted.foldl enrich_step args

/-- The key set of `_EXTRACTORS` (server.py): the seven locksmith tools
that have a regex extraction rule. -/
def extractor_tool_names : List String :=
  ["diagnose_lock_fault", "log_service_report", "generate_checklist",
   "lookup_part", "schedule_followup", "contact_dispatch", "generate_invoice"]

/-- `_EXTRACTORS` (server.py) as a lookup, parametric in the family
`ext` of per-tool extractor functions (tool name → utterance → args). -/
def _EXTRACTORS (ext : String → String → Args) (name : String) : Option (String → Args) :=
  if name ∈ extractor_tool_names then some (ext name) else none

/-- A chat message. -/
structure Msg where
  role : String
  content : String
deriving DecidableEq, Repr

/-- A tool schema of the catalog. Only the name is ever consulted by the
embedded operations (descriptions and parameter schemas are inert data
passed to the external router). -/
structure ToolSchema where
  name : String
deriving DecidableEq, Repr

/-- `LOCKSMITH_TOOLS` (server.py): the default tool catalog. -/
def LOCKSMITH_TOOLS : List ToolSchema :=
  [⟨"diagnose_lock_fault"⟩, ⟨"log_service_report"⟩, ⟨"generate_checklist"⟩,
   ⟨"lookup_part"⟩, ⟨"schedule_followup"⟩, ⟨"contact_dispatch"⟩, ⟨"generate_invoice"⟩]

/-- One entry of the `patterns` table of `_keyword_fallback`: activation
regex, tool name, argument extractor, requires-cloud flag. -/
structure FallbackRule where
  pattern : String
  tool_name : String
  extractor : String → Args
  is_cloud : Bool

/-- The `patterns` table of `_keyword_fallback` (server.py), parametric
in the per-tool extractor family `ext`. -/
def fallback_patterns (ext : String → String → Args) : List FallbackRule :=
  [⟨"diagnos|jammed|stuck|broken|won.?t turn|fault|malfunction|not working|lock issue",
    "diagnose_lock_fault", ext "diagnose_lock_fault", false⟩,
   ⟨"log\\s+service|service\\s+report|report\\s+for|completed|finished\\s+job",
    "log_service_report", ext "log_service_report", false⟩,
   ⟨"checklist|pre.?job|safety\\s+check",
    "generate_checklist", ext "generate_checklist", false⟩,
   ⟨"look\\s*up|part|key\\s*blank|hardware|component|model\\s+number",
    "lookup_part", ext "lookup_part", false⟩,
   ⟨"schedule|follow.?up|appointment|next\\s+(monday|tuesday|wednesday|thursday|friday|saturday|sunday)",
    "schedule_followup", ext "schedule_followup", false⟩,
   ⟨"dispatch|backup|emergency|reinforcement|send\\s+help",
    "contact_dispatch", ext "contact_dispatch", false⟩,
   ⟨"invoice|bill|charge|receipt|payment",
    "generate_invoice", ext "generate_invoice", true⟩]

/-- `" ".join(m["content"] for m in messages if m.get("role") == "user")`. -/
def fallback_user_text (messages : List Msg) : String :=
  " ".intercalate ((messages.filter (fun m => m.role == "user")).map (fun m => m.content))

/-- The loop of `_keyword_fallback` over the pattern table: each rule
whose tool is in the catalog and whose pattern matches the lower-cased
user text contributes one call, and the requires-cloud flags of the
fired rules are or-ed. `search pat text` is the oracle for
`re.search(pat, text) is not None`. -/
def run_fallback_rules (search : String → String → Bool)
    (user_text text_lower : String) (tool_names : List String) :
    List FallbackRule → List Call × Bool
  | [] => ([], false)
  | r :: rest =>
    let acc := run_fallback_rules search user_text text_lower tool_names rest
    if tool_names.contains r.tool_name && search r.pattern text_lower then
      (⟨r.tool_name, r.extractor user_text⟩ :: acc.1, r.is_cloud || acc.2)
    else acc

/-- The envelope an attempt of the primary router (`generate_hybrid`)
produces: Python reads `source` and `total_time_ms` with `.get`
defaults, so both are optional here. -/
structure RouterOutput where
  function_calls : List Call
  total_time_ms : Option ℚ
  source : Option String

/-- `_keyword_fallback` (server.py). `elapsed` is the oracle for its
own wall-clock measurement. -/
def _keyword_fallback (search : String → String → Bool) (ext : String → String → Args)
    (elapsed : ℚ) (messages : List Msg) (tools : List ToolSchema) : RouterOutput :=
  let user_text := fallback_user_text messages
  let text_lower := pyLower user_text
  let tool_names := tools.map (fun t => t.name)
  let fired := run_fallback_rules search user_text text_lower tool_names (fallback_patterns ext)
  { function_calls := fired.1
    total_time_ms := some elapsed
    source := some (if fired.2 then "cloud" else "on-device") }

/-- An opaque mock tool execution payload (the mock handlers return JSON
dicts). -/
abbrev ToolResult := List (String × Value)

/-- One executed call of a response (`{"name", "arguments", "result"}`). -/
structure ExecutedCall where
  name : String
  arguments : Args
  result : ToolResult
deriving DecidableEq, Repr

/-- One entry of the in-memory `_job_history` log. -/
structure HistoryEntry where
  name : String
  arguments : Args
  result : ToolResult
  timestamp : String
  source : String
  latency_ms : ℚ
deriving Repr

/-- Python `round(x, 1)` on the rationals standing in for floats:
round-half-to-even at one decimal place. -/
def pyRound1 (q : ℚ) : ℚ :=
  let x := q * 10
  let f : ℤ := Int.floor x
  let r := x - (f : ℚ)
  let n : ℤ :=
    if r < 1 / 2 then f
    else if 1 / 2 < r then f + 1
    else if f % 2 = 0 then f else f + 1
  (n : ℚ) / 10

/-- The response of `POST /api/hybrid`. -/
structure HybridResponse where
  function_calls : List ExecutedCall
  source : String
  latency_ms : ℚ
deriving Repr

/-- `hybrid_endpoint` (server.py). Oracles: `search`/`ext` feed the
fallback and enrichment; `execute` is the mock tool table; `timestamp`
the formatted time; `router` the primary router's outcome (`none` when
`generate_hybrid` raised); `fb_elapsed` the fallback's internal clock
reading; `elapsed` the dispatcher's wall-clock reading. The history is
threaded as explicit state: the endpoint returns the new history and the
response. -/
def hybrid_endpoint (search : String → String → Bool) (ext : String → String → Args)
    (execute : String → Args → ToolResult) (timestamp : String)
    (router : Option RouterOutput) (fb_elapsed elapsed : ℚ)
    (messages : List Msg) (req_tools : Option (List ToolSchema))
    (history : List HistoryEntry) : List HistoryEntry × HybridResponse :=
  let tools := match req_tools with
    | some ts => if ts.isEmpty then LOCKSMITH_TOOLS else ts
    | none => LOCKSMITH_TOOLS
  let result := match router with
    | some r => r
    | none => _keyword_fallback search ext fb_elapsed messages tools
  let user_text := fallback_user_text messages
  let enriched := result.function_calls.map fun c =>
    ({ name := c.name, arguments := _enrich_arguments (_EXTRACTORS ext) c.name c.arguments user_text } : Call)
  let executed := enriched.map fun c =>
    ({ name := c.name, arguments := c.arguments, result := execute c.name c.arguments } : ExecutedCall)
  let src := result.source.getD "unknown"
  let entries := executed.map fun e =>
    ({ name := e.name, arguments := e.arguments, result := e.result,
       timestamp := timestamp, source := src, latency_ms := pyRound1 elapsed } : HistoryEntry)
  (history ++ entries,
   { function_calls := executed, source := src, latency_ms := pyRound1 elapsed })

/-- The response of `POST /api/process_voice`. -/
structure VoiceResponse where
  transcription : String
  transcribe_latency_ms : ℚ
  function_calls : List ExecutedCall
  source : String
  routing_latency_ms : ℚ
deriving Repr

/-- `process_voice_endpoint` (server.py), from the point where step 1
has produced `transcribe_text`/`transcribe_ms` (the transcription
pipeline sets the text to `""` when the model is unavailable or
transcription fails). `routing_ms` is the oracle for the endpoint's own
wall-clock measurement around the routing step. The endpoint never
touches the history; it is threaded anyway to state that. -/
def process_voice_endpoint (search : String → String → Bool) (ext : String → String → Args)
    (execute : String → Args → ToolResult)
    (router : Option RouterOutput) (fb_elapsed routing_ms : ℚ)
    (transcribe_text : String) (transcribe_ms : ℚ)
    (history : List HistoryEntry) : List HistoryEntry × VoiceResponse :=
  if transcribe_text = "" then
    (history,
     { transcription := "", transcribe_latency_ms := pyRound1 transcribe_ms,
       function_calls := [], source := "none", routing_latency_ms := 0 })
  else
    let messages : List Msg := [⟨"user", transcribe_text⟩]
    let hybrid_result := match router with
      | some r => r
      | none => _keyword_fallback search ext fb_elapsed messages LOCKSMITH_TOOLS
    let enriched := hybrid_result.function_calls.map fun c =>
      ({ name := c.name, arguments := _enrich_arguments (_EXTRACTORS ext) c.name c.arguments transcribe_text } : Call)
    let executed := enriched.map fun c =>
      ({ name := c.name, arguments := c.arguments, result := execute c.name c.arguments } : ExecutedCall)
    (history,
     { transcription := transcribe_text, transcribe_latency_ms := pyRound1 transcribe_ms,
       function_calls := executed, source := hybrid_result.source.getD "unknown",
       routing_latency_ms := pyRound1 (hybrid_result.total_time_ms.getD routing_ms) })

/-- Value equality as the spec words it for scoring: strings compare
lower-cased and stripped of leading/trailing whitespace; non-string
values compare by raw equality. -/
def spec_norm_eq : Value → Value → Prop
  | .vStr s, .vStr t => pyLower (pyStrip s) = pyLower (pyStrip t)
  | v, w => v = w

/-- A placeholder value as the claim words it: a string equal — compared
lower-cased and stripped — to one of the known placeholder values. -/
def spec_placeholder : Value → Prop
  | .vStr s => ∃ d ∈ _DEFAULT_VALUES, pyLower (pyStrip s) = pyLower (pyStrip d)
  | _ => False

theorem availFrom_nil : ∀ (ps : List Call) (i : Nat), availFrom [] ps i = ps := by
  intro ps
  induction ps with
  | nil => intro i; rfl
  | cons p ps ih => intro i; simp [availFrom, ih]

theorem availFrom_cons_of_lt (used : List Nat) (j : Nat) :
    ∀ (ps : List Call) (i : Nat), j < i →
      availFrom (j :: used) ps i = availFrom used ps i := by
  intro ps
  induction ps with
  | nil => intro i _; rfl
  | cons p ps ih =>
    intro i h
    have hij : (i == j) = false := beq_eq_false_iff_ne.mpr (Nat.ne_of_gt h)
    simp only [availFrom, List.contains_cons, hij, Bool.false_or]
    rw [ih (i + 1) (Nat.lt_succ_of_lt h)]

theorem findFirstUnused_ge (used : List Nat) (e : Call) :
    ∀ (ps : List Call) (i j : Nat), findFirstUnused used e ps i = some j → i ≤ j := by
  intro ps
  induction ps with
  | nil => intro i j h; simp [findFirstUnused] at h
  | cons p ps ih =>
    intro i j h
    rw [findFirstUnused] at h
    by_cases hc : (!used.contains i && _call_matches p e) = true
    · rw [if_pos hc] at h
      exact Option.some_injective _ h ▸ Nat.le_refl i
    · rw [if_neg hc] at h
      exact Nat.le_of_succ_le (ih (i + 1) j h)

theorem findFirstUnused_none (used : List Nat) (e : Call) :
    ∀ (ps : List Call) (i : Nat), findFirstUnused used e ps i = none →
      removeFirstMatch e (availFrom used ps i) = none := by
  intro ps
  induction ps with
  | nil => intro i _; rfl
  | cons p ps ih =>
    intro i h
    rw [findFirstUnused] at h
    by_cases hc : (!used.contains i && _call_matches p e) = true
    · rw [if_pos hc] at h; exact absurd h (by simp)
    · rw [if_neg hc] at h
      rw [availFrom]
      cases hu : used.contains i with
      | true => rw [if_pos rfl]; exact ih (i + 1) h
      | false =>
        rw [if_neg Bool.false_ne_true]
        have hm : _call_matches p e = false := by
          cases hm : _call_matches p e with
          | false => rfl
          | true => exact absurd (by rw [hu, hm]; rfl) hc
        rw [removeFirstMatch, if_neg (by rw [hm]; exact Bool.false_ne_true),
          ih (i + 1) h]
        rfl

theorem findFirstUnused_some (used : List Nat) (e : Call) :
    ∀ (ps : List Call) (i j : Nat), findFirstUnused used e ps i = some j →
      removeFirstMatch e (availFrom used ps i) = some (availFrom (j :: used) ps i) := by
  intro ps
  induction ps with
  | nil => intro i j h; simp [findFirstUnused] at h
  | cons p ps ih =>
    intro i j h
    rw [findFirstUnused] at h
    by_cases hc : (!used.contains i && _call_matches p e) = true
    · rw [if_pos hc] at h
      have hj : i = j := Option.some_injective _ h
      subst hj
      rw [Bool.and_eq_true, Bool.not_eq_true'] at hc
      obtain ⟨hu, hm⟩ := hc
      rw [availFrom, if_neg (by rw [hu]; exact Bool.false_ne_true),
        removeFirstMatch, if_pos hm]
      have hcons : (i :: used).contains i = true := by
        rw [List.contains_cons, BEq.refl]; rfl
      rw [availFrom, if_pos hcons,
        availFrom_cons_of_lt used i ps (i + 1) (Nat.lt_succ_self i)]
    · rw [if_neg hc] at h
      have hji : i + 1 ≤ j := findFirstUnused_ge used e ps (i + 1) j h
      have hij : (i == j) = false :=
        beq_eq_false_iff_ne.mpr (Nat.ne_of_lt (Nat.lt_of_succ_le hji))
      cases hu : used.contains i with
      | true =>
        have hcons : (j :: used).contains i = true := by
          rw [List.contains_cons, hij, hu]; rfl
        rw [availFrom, if_pos hu, availFrom, if_pos hcons, ih (i + 1) j h]
      | false =>
        have hm : _call_matches p e = false := by
          cases hm : _call_matches p e with
          | false => rfl
          | true => exact absurd (by rw [hu, hm]; rfl) hc
        have hcons : (j :: used).contains i = false := by
          rw [List.contains_cons, hij, hu]; rfl
        rw [availFrom, if_neg (by rw [hu]; exact Bool.false_ne_true),
          availFrom, if_neg (by rw [hcons]; exact Bool.false_ne_true),
          removeFirstMatch, if_neg (by rw [hm]; exact Bool.false_ne_true),
          ih (i + 1) j h]
        rfl

/-- The index-based greedy loop of `compute_f1` counts exactly what the
removal-based greedy of the reference definition counts. -/
theorem matchedLoop_eq_specMatched_aux :
    ∀ (exps preds : List Call) (used : List Nat),
      matchedLoop preds exps used = specMatched (availFrom used preds 0) exps := by
  intro exps
  induction exps with
  | nil => intro preds used; rfl
  | cons e es ih =>
    intro preds used
    rw [matchedLoop, specMatched]
    cases h : findFirstUnused used e preds 0 with
    | none => rw [findFirstUnused_none used e preds 0 h]; exact ih preds used
    | some j =>
      rw [findFirstUnused_some used e preds 0 j h]
      exact congrArg (fun t => 1 + t) (ih preds (j :: used))

theorem matchedLoop_eq_specMatched (preds exps : List Call) :
    matchedLoop preds exps [] = specMatched preds exps := by
  rw [matchedLoop_eq_specMatched_aux, availFrom_nil]

/-- C1: for every pair of call lists, `compute_f1` equals the reference
definition `compute_f1_spec` written from the spec's words: 1.0 when
both lists are empty, 0.0 when exactly one is, otherwise the f1 formula
over the greedy order-preserving at-most-one-to-one matched count. -/
theorem compute_f1_agrees_with_reference (predicted expected : List Call) :
    compute_f1 predicted expected = compute_f1_spec predicted expected := by
  cases predicted with
  | nil =>
    cases expected with
    | nil => rfl
    | cons e es => rfl
  | cons p ps =>
    cases expected with
    | nil => rfl
    | cons e es =>
      simp only [compute_f1, compute_f1_spec, matchedLoop_eq_specMatched]
      norm_num [List.cons_ne_nil]

theorem spec_norm_eq_iff (v w : Value) : (_normalize v = _normalize w) ↔ spec_norm_eq v w := by
  cases v with
  | vStr s => cases w with
    | vStr t => simp [_normalize, spec_norm_eq]
    | vInt n => simp [_normalize, spec_norm_eq]
  | vInt m => cases w with
    | vStr t => simp [_normalize, spec_norm_eq]
    | vInt n => simp [_normalize, spec_norm_eq]

/-- C2: a predicted call matches an expected call iff the names are
equal and every key of the expected arguments is present in the
predicted arguments with a `spec_norm_eq`-equal value (strings compare
lower-cased and stripped, non-strings raw); extra predicted keys are
ignored and a missing expected key fails the match. -/
theorem call_matches_characterization (p e : Call) :
    _call_matches p e = true ↔
      (p.name = e.name ∧
        ∀ k v, (k, v) ∈ e.arguments →
          ∃ w, p.arguments.lookup k = some w ∧ spec_norm_eq w v) := by
  rw [_call_matches, Bool.and_eq_true, beq_iff_eq, List.all_eq_true]
  constructor
  · rintro ⟨hname, hall⟩
    refine ⟨hname, ?_⟩
    intro k v hkv
    have h := hall (k, v) hkv
    cases hl : p.arguments.lookup k with
    | none => rw [hl] at h; exact absurd h (by simp)
    | some w =>
      rw [hl] at h
      exact ⟨w, rfl, (spec_norm_eq_iff w v).mp (beq_iff_eq.mp h)⟩
  · rintro ⟨hname, hall⟩
    refine ⟨hname, ?_⟩
    intro kv hkv
    obtain ⟨w, hl, hw⟩ := hall kv.1 kv.2 hkv
    rw [hl]
    exact beq_iff_eq.mpr ((spec_norm_eq_iff w kv.2).mpr hw)

theorem removeFirstMatch_none_iff (e : Call) :
    ∀ preds : List Call,
      removeFirstMatch e preds = none ↔ ∀ p ∈ preds, _call_matches p e = false := by
  intro preds
  induction preds with
  | nil => simp [removeFirstMatch]
  | cons p ps ih =>
    rw [removeFirstMatch]
    by_cases hm : _call_matches p e = true
    · rw [if_pos hm]; simp [hm]
    · have hm' : _call_matches p e = false := by
        cases h : _call_matches p e
        · rfl
        · exact absurd h hm
      rw [if_neg hm, Option.map_eq_none', ih]
      simp [List.forall_mem_cons, hm']

theorem removeFirstMatch_subset (e : Call) :
    ∀ preds rest : List Call, removeFirstMatch e preds = some rest →
      ∀ x ∈ rest, x ∈ preds := by
  intro preds
  induction preds with
  | nil => intro rest h; simp [removeFirstMatch] at h
  | cons p ps ih =>
    intro rest h
    rw [removeFirstMatch] at h
    by_cases hm : _call_matches p e = true
    · rw [if_pos hm] at h
      obtain rfl : ps = rest := Option.some_injective _ h
      intro x hx
      exact List.mem_cons_of_mem p hx
    · rw [if_neg hm] at h
      cases hr : removeFirstMatch e ps with
      | none => rw [hr] at h; exact absurd h (by simp)
      | some rest' =>
        rw [hr] at h
        obtain rfl : p :: rest' = rest := Option.some_injective _ h
        intro x hx
        rcases List.mem_cons.mp hx with rfl | hx'
        · exact List.mem_cons_self x ps
        · exact List.mem_cons_of_mem p (ih rest' hr x hx')

theorem removeFirstMatch_mem (e : Call) :
    ∀ preds rest : List Call, removeFirstMatch e preds = some rest →
      ∀ x ∈ preds, x ∈ rest ∨ _call_matches x e = true := by
  intro preds
  induction preds with
  | nil => intro rest h; simp [removeFirstMatch] at h
  | cons p ps ih =>
    intro rest h
    rw [removeFirstMatch] at h
    by_cases hm : _call_matches p e = true
    · rw [if_pos hm] at h
      obtain rfl : ps = rest := Option.some_injective _ h
      intro x hx
      rcases List.mem_cons.mp hx with rfl | hx'
      · exact Or.inr hm
      · exact Or.inl hx'
    · rw [if_neg hm] at h
      cases hr : removeFirstMatch e ps with
      | none => rw [hr] at h; exact absurd h (by simp)
      | some rest' =>
        rw [hr] at h
        obtain rfl : p :: rest' = rest := Option.some_injective _ h
        intro x hx
        rcases List.mem_cons.mp hx with rfl | hx'
        · exact Or.inl (List.mem_cons_self x rest')
        · rcases ih rest' hr x hx' with hin | hmatch
          · exact Or.inl (List.mem_cons_of_mem p hin)
          · exact Or.inr hmatch

theorem countP_congr_mem {α : Type} (f g : α → Bool) :
    ∀ l : List α, (∀ x ∈ l, f x = g x) → l.countP f = l.countP g := by
  intro l
  induction l with
  | nil => intro _; rfl
  | cons a l ih =>
    intro h
    rw [List.countP_cons, List.countP_cons, h a (List.mem_cons_self a l),
      ih (fun x hx => h x (List.mem_cons_of_mem a hx))]

/-- When no predicted call matches two distinct expected calls, the
greedy matched count is just the number of expected calls that match at
least one predicted call — an order-free quantity. -/
theorem specMatched_eq_countP :
    ∀ (exps preds : List Call),
      exps.Pairwise (fun a b => ¬ overlapping preds a b) →
      specMatched preds exps
        = exps.countP (fun e => preds.any (fun p => _call_matches p e)) := by
  intro exps
  induction exps with
  | nil => intro preds _; rfl
  | cons e es ih =>
    intro preds hp
    rw [List.pairwise_cons] at hp
    obtain ⟨hhead, htail⟩ := hp
    rw [specMatched, List.countP_cons]
    cases hr : removeFirstMatch e preds with
    | none =>
      have hnone : ∀ p ∈ preds, _call_matches p e = false :=
        (removeFirstMatch_none_iff e preds).mp hr
      have hany : (preds.any fun p => _call_matches p e) = false := by
        rw [List.any_eq_false]
        intro p hp'
        rw [hnone p hp']
        exact Bool.false_ne_true
      rw [ih preds htail, hany]
      rfl
    | some rest =>
      have hsub := removeFirstMatch_subset e preds rest hr
      have hmem := removeFirstMatch_mem e preds rest hr
      have htail' : es.Pairwise (fun a b => ¬ overlapping rest a b) := by
        refine htail.imp ?_
        intro a b hab hover
        obtain ⟨q, hq, hqa, hqb⟩ := hover
        exact hab ⟨q, hsub q hq, hqa, hqb⟩
      have hcong : es.countP (fun e' => rest.any (fun p => _call_matches p e'))
          = es.countP (fun e' => preds.any (fun p => _call_matches p e')) := by
        refine countP_congr_mem _ _ es ?_
        intro e' he'
        cases hpr : (preds.any fun p => _call_matches p e') with
        | false =>
          rw [List.any_eq_false] at hpr
          cases hre : (rest.any fun p => _call_matches p e') with
          | false => rfl
          | true =>
            rw [List.any_eq_true] at hre
            obtain ⟨q, hq, hqm⟩ := hre
            exact absurd hqm (hpr q (hsub q hq))
        | true =>
          rw [List.any_eq_true] at hpr
          obtain ⟨q, hq, hqm'⟩ := hpr
          have hqe : _call_matches q e = false := by
            cases hqe : _call_matches q e with
            | false => rfl
            | true => exact absurd ⟨q, hq, hqe, hqm'⟩ (hhead e' he')
          have hq' : q ∈ rest := by
            rcases hmem q hq with h | h
            · exact h
            · exact absurd h (by rw [hqe]; exact Bool.false_ne_true)
          rw [List.any_eq_true]
          exact ⟨q, hq', hqm'⟩
      have hex : (preds.any fun p => _call_matches p e) = true := by
        cases hx : (preds.any fun p => _call_matches p e) with
        | true => rfl
        | false =>
          rw [List.any_eq_false] at hx
          have : removeFirstMatch e preds = none := by
            rw [removeFirstMatch_none_iff]
            intro p hp'
            cases hc : _call_matches p e with
            | false => rfl
            | true => exact absurd hc (hx p hp')
          rw [this] at hr
          exact absurd hr (by simp)
      have hfin : (1 : ℕ) + specMatched rest es
          = List.countP (fun e => preds.any fun p => _call_matches p e) es +
            if (preds.any fun p => _call_matches p e) = true then 1 else 0 := by
        rw [ih rest htail', hcong, hex, if_pos rfl]
        omega
      exact hfin

/-- C3 (amended): permuting `expected` preserves the greedy matched
count, and hence the `compute_f1` value, provided no predicted call
matches two distinct expected calls (pairwise non-overlapping match
sets); without that proviso the counterexample shows order matters. -/
theorem compute_f1_perm_invariant_of_disjoint
    (preds expected expected' : List Call)
    (hperm : expected'.Perm expected)
    (hdisj : expected.Pairwise (fun a b => ¬ overlapping preds a b)) :
    compute_f1 preds expected' = compute_f1 preds expected := by
  have hsymm : Symmetric (fun a b => ¬ overlapping preds a b) := by
    intro a b hab hover
    obtain ⟨q, hq, hqa, hqb⟩ := hover
    exact hab ⟨q, hq, hqb, hqa⟩
  have hdisj' : expected'.Pairwise (fun a b => ¬ overlapping preds a b) :=
    (hperm.pairwise_iff (fun h => hsymm h)).mpr hdisj
  have hm : matchedLoop preds expected' [] = matchedLoop preds expected [] := by
    rw [matchedLoop_eq_specMatched, matchedLoop_eq_specMatched,
      specMatched_eq_countP expected' preds hdisj',
      specMatched_eq_countP expected preds hdisj]
    exact hperm.countP_eq _
  have hlen : expected'.length = expected.length := hperm.length_eq
  have hemp : expected'.isEmpty = expected.isEmpty := by
    cases expected' <;> cases expected <;> first | rfl | simp at hlen
  rw [compute_f1, compute_f1, hm, hlen, hemp]

theorem compute_f1_perm_invariant_of_disjoint_witness :
    compute_f1 [⟨"a", []⟩] [⟨"b", []⟩, ⟨"a", []⟩]
      = compute_f1 [⟨"a", []⟩] [⟨"a", []⟩, ⟨"b", []⟩] :=
  compute_f1_perm_invariant_of_disjoint _ _ _ (by decide) (by decide)

/-- C3 counterexample: with predicted pool `[t(a=x), t()]`, the expected
list `[t(), t(a=x)]` greedily matches only one call (`t()` consumes
`t(a=x)` first) while its permutation `[t(a=x), t()]` matches both, so
`compute_f1` differs between the two orders of the same multiset. -/
theorem compute_f1_not_perm_invariant_cex :
    List.Perm [(⟨"t", []⟩ : Call), ⟨"t", [("a", Value.vStr "x")]⟩]
        [⟨"t", [("a", Value.vStr "x")]⟩, ⟨"t", []⟩]
      ∧ compute_f1 [⟨"t", [("a", Value.vStr "x")]⟩, ⟨"t", []⟩]
            [⟨"t", []⟩, ⟨"t", [("a", Value.vStr "x")]⟩]
          ≠ compute_f1 [⟨"t", [("a", Value.vStr "x")]⟩, ⟨"t", []⟩]
            [⟨"t", [("a", Value.vStr "x")]⟩, ⟨"t", []⟩] := by
  constructor
  · decide
  · have h1 : matchedLoop [⟨"t", [("a", Value.vStr "x")]⟩, ⟨"t", []⟩]
        [⟨"t", []⟩, ⟨"t", [("a", Value.vStr "x")]⟩] [] = 1 := by decide
    have h2 : matchedLoop [⟨"t", [("a", Value.vStr "x")]⟩, ⟨"t", []⟩]
        [⟨"t", [("a", Value.vStr "x")]⟩, ⟨"t", []⟩] [] = 2 := by decide
    simp only [compute_f1, h1, h2]
    norm_num

theorem score_step_eq (results : List CaseResult) (acc : ℚ) (dw : String × ℚ) :
    score_step results acc dw
      = if (results.filter (fun r => r.difficulty == dw.1)).isEmpty then acc
        else acc + dw.2 * spec_tier_score results dw.1 := by
  simp only [score_step, spec_tier_score, level_score, time_score, time_baseline_ms]

theorem foldl_score_step (results : List CaseResult) :
    ∀ (ws : List (String × ℚ)) (acc : ℚ),
      ws.foldl (score_step results) acc
        = acc + ((ws.filter (fun dw =>
            !(results.filter (fun r => r.difficulty == dw.1)).isEmpty)).map
            (fun dw => dw.2 * spec_tier_score results dw.1)).sum := by
  intro ws
  induction ws with
  | nil => intro acc; simp
  | cons dw ws ih =>
    intro acc
    rw [List.foldl_cons, score_step_eq, List.filter_cons]
    cases hemp : (results.filter (fun r => r.difficulty == dw.1)).isEmpty with
    | true =>
      rw [if_pos rfl, ih acc]
      norm_num
    | false =>
      rw [if_neg (by exact Bool.false_ne_true), ih]
      norm_num
      ring

/-- C4: `compute_total_score` equals 100 times the spec's weighted sum of
tier scores over the tiers present (weights 0.20/0.30/0.50, absent tiers
skipped, no renormalization); and a tier with avg f1 0.8, avg latency
250 ms and on-device ratio 0.5 scores 0.68. -/
theorem compute_total_score_agrees_with_reference (results : List CaseResult) :
    compute_total_score results = spec_total_score results
      ∧ level_score 0.8 (time_score 250) 0.5 = 0.68 := by
  constructor
  · rw [compute_total_score, spec_total_score, foldl_score_step]
    simp only [difficulty_weights]
    ring
  · rw [level_score, time_score, time_baseline_ms]
    rw [show (1 : ℚ) - 250 / 500 = 1 / 2 by norm_num,
      max_eq_right (by norm_num : (0 : ℚ) ≤ 1 / 2)]
    norm_num

theorem lookup_dictSet_self : ∀ (args : Args) (k : String) (v : Value),
    (dictSet args k v).lookup k = some v := by
  intro args k v
  induction args with
  | nil => simp [dictSet]
  | cons kv rest ih =>
    obtain ⟨k', v'⟩ := kv
    by_cases hk : k' = k
    · subst hk
      rw [dictSet, if_pos (beq_self_eq_true k')]
      simp
    · rw [dictSet, if_neg (by simp [hk]), List.lookup_cons,
        beq_eq_false_iff_ne.mpr (Ne.symm hk)]
      exact ih

theorem lookup_dictSet_ne : ∀ (args : Args) (k k' : String) (v : Value), k ≠ k' →
    (dictSet args k' v).lookup k = args.lookup k := by
  intro args k k' v hne
  induction args with
  | nil =>
    rw [dictSet, List.lookup_cons, beq_eq_false_iff_ne.mpr hne]
  | cons kv rest ih =>
    obtain ⟨k0, v0⟩ := kv
    by_cases hk : k0 = k'
    · have hkk0 : (k == k0) = false := beq_eq_false_iff_ne.mpr (by rw [hk]; exact hne)
      rw [dictSet, if_pos (beq_iff_eq.mpr hk), List.lookup_cons, List.lookup_cons, hkk0]
    · rw [dictSet, if_neg (by simp [hk]), List.lookup_cons, List.lookup_cons]
      cases hkk : (k == k0) with
      | true => rfl
      | false => exact ih

theorem dictSet_of_lookup_eq : ∀ (args : Args) (k : String) (v : Value),
    args.lookup k = some v → dictSet args k v = args := by
  intro args k v
  induction args with
  | nil => intro h; simp at h
  | cons kv rest ih =>
    obtain ⟨k0, v0⟩ := kv
    intro h
    rw [List.lookup_cons] at h
    cases hkk : (k == k0) with
    | true =>
      rw [hkk] at h
      obtain rfl : v0 = v := Option.some_injective _ h
      rw [dictSet, if_pos (beq_iff_eq.mpr (beq_iff_eq.mp hkk).symm)]
    | false =>
      rw [hkk] at h
      have h' : rest.lookup k = some v := h
      rw [dictSet,
        if_neg (fun hh => Ne.symm (beq_eq_false_iff_ne.mp hkk) (beq_iff_eq.mp hh)),
        ih h']

theorem enrich_step_lookup_ne (acc : Args) (kv : String × Value) (k : String)
    (hne : kv.1 ≠ k) : (enrich_step acc kv).lookup k = acc.lookup k := by
  rw [enrich_step]
  split
  · exact lookup_dictSet_ne acc k kv.1 kv.2 (Ne.symm hne)
  · rfl

theorem enrich_foldl_lookup_not_mem :
    ∀ (l : List (String × Value)) (args : Args) (k : String),
      k ∉ l.map Prod.fst → (l.foldl enrich_step args).lookup k = args.lookup k := by
  intro l
  induction l with
  | nil => intro args k _; rfl
  | cons kv rest ih =>
    intro args k hk
    rw [List.map_cons, List.mem_cons] at hk
    push_neg at hk
    rw [List.foldl_cons, ih (enrich_step args kv) k hk.2,
      enrich_step_lookup_ne args kv k (fun h => hk.1 h.symm)]

theorem enrich_foldl_preserves_nondefault :
    ∀ (l : List (String × Value)) (args : Args) (k : String) (w : Value),
      args.lookup k = some w → default_like w = false →
      (l.foldl enrich_step args).lookup k = some w := by
  intro l
  induction l with
  | nil => intro args k w hl _; exact hl
  | cons kv rest ih =>
    intro args k w hl hd
    rw [List.foldl_cons]
    by_cases hk : kv.1 = k
    · have hstep : enrich_step args kv = args := by
        rw [enrich_step, hk, hl]
        rw [if_neg (by rw [Option.getD_some, hd]; exact Bool.false_ne_true)]
      rw [hstep]
      exact ih args k w hl hd
    · refine ih (enrich_step args kv) k w ?_ hd
      rw [enrich_step_lookup_ne args kv k hk, hl]

theorem enrich_foldl_changed (l : List (String × Value)) (args : Args) (k : String)
    (hch : (l.foldl enrich_step args).lookup k ≠ args.lookup k) :
    k ∈ l.map Prod.fst
      ∧ (args.lookup k = none
          ∨ ∃ w, args.lookup k = some w ∧ default_like w = true) := by
  constructor
  · by_contra hmem
    exact hch (enrich_foldl_lookup_not_mem l args k hmem)
  · cases hl : args.lookup k with
    | none => exact Or.inl rfl
    | some w =>
      refine Or.inr ⟨w, rfl, ?_⟩
      cases hd : default_like w with
      | true => rfl
      | false =>
        exact absurd ((enrich_foldl_preserves_nondefault l args k w hl hd).trans hl.symm) hch

/-- C5 (amended): argument enrichment never touches a key the extraction
rule did not produce; it overwrites a present value only when that value
is Python-falsy (empty string or zero) or its string form strips to one
of the known placeholder values, so a present value that is neither is
always preserved; and with no rule for the tool name the arguments come
back unchanged. -/
theorem enrich_arguments_overwrite_policy
    (extractors : String → Option (String → Args)) (tool : String)
    (args : Args) (user_text : String) :
    (extractors tool = none → _enrich_arguments extractors tool args user_text = args)
    ∧ (∀ k w, args.lookup k = some w → default_like w = false →
        (_enrich_arguments extractors tool args user_text).lookup k = some w)
    ∧ (∀ k, (_enrich_arguments extractors tool args user_text).lookup k ≠ args.lookup k →
        (∃ f, extractors tool = some f ∧ k ∈ (f user_text).map Prod.fst)
          ∧ (args.lookup k = none
              ∨ ∃ w, args.lookup k = some w ∧ default_like w = true)) := by
  refine ⟨?_, ?_, ?_⟩
  · intro h; rw [_enrich_arguments, h]
  · intro k w hl hd
    rw [_enrich_arguments]
    cases he : extractors tool with
    | none => exact hl
    | some f => exact enrich_foldl_preserves_nondefault _ args k w hl hd
  · intro k hch
    rw [_enrich_arguments] at hch
    cases he : extractors tool with
    | none => rw [he] at hch; exact absurd rfl hch
    | some f =>
      rw [he] at hch
      obtain ⟨hmem, hold⟩ := enrich_foldl_changed _ args k hch
      exact ⟨⟨f, rfl, hmem⟩, hold⟩

theorem enrich_arguments_overwrite_policy_witness :
    (_enrich_arguments (fun _ => none) "lookup_part"
        [("query", Value.vStr "SC1 blank")] "find an SC1 blank").lookup "query"
      = some (Value.vStr "SC1 blank") :=
  (enrich_arguments_overwrite_policy (fun _ => none) "lookup_part"
      [("query", Value.vStr "SC1 blank")] "find an SC1 blank").2.1
    "query" (Value.vStr "SC1 blank") rfl (by decide)

/-- C5 counterexample: the integer value 0 is present and is not empty
nor (even compared lower-cased and stripped) one of the placeholder
values, yet enrichment overwrites it, because Python's falsiness test
`not existing` also fires on zero. -/
theorem enrich_changes_present_nonplaceholder_cex :
    ([("urgency", Value.vInt 0)] : Args).lookup "urgency" = some (Value.vInt 0)
    ∧ Value.vInt 0 ≠ Value.vStr ""
    ∧ ¬ spec_placeholder (Value.vInt 0)
    ∧ (_enrich_arguments
        (fun n => if n == "contact_dispatch"
          then some (fun _ => [("urgency", Value.vStr "medium")]) else none)
        "contact_dispatch" [("urgency", Value.vInt 0)]
        "need backup at the warehouse").lookup "urgency"
      = some (Value.vStr "medium") := by
  refine ⟨rfl, by decide, fun h => h, by decide⟩

theorem enrich_foldl_final_value :
    ∀ (l : List (String × Value)) (args : Args),
      (l.map Prod.fst).Nodup →
      ∀ kv ∈ l,
        (l.foldl enrich_step args).lookup kv.1 = some kv.2
          ∨ ∃ w, (l.foldl enrich_step args).lookup kv.1 = some w
                  ∧ default_like w = false := by
  intro l
  induction l with
  | nil => intro args _ kv hkv; simp at hkv
  | cons kv0 rest ih =>
    intro args hnd kv hkv
    rw [List.map_cons, List.nodup_cons] at hnd
    obtain ⟨hnotin, hndrest⟩ := hnd
    rw [List.foldl_cons]
    rcases List.mem_cons.mp hkv with rfl | hmem
    · have htrans : (rest.foldl enrich_step (enrich_step args kv)).lookup kv.1
          = (enrich_step args kv).lookup kv.1 :=
        enrich_foldl_lookup_not_mem rest (enrich_step args kv) kv.1 hnotin
      rw [htrans]
      rw [enrich_step]
      cases hd : default_like ((args.lookup kv.1).getD (.vStr "")) with
      | true =>
        rw [if_pos rfl]
        exact Or.inl (lookup_dictSet_self args kv.1 kv.2)
      | false =>
        rw [if_neg Bool.false_ne_true]
        cases hl : args.lookup kv.1 with
        | none =>
          rw [hl, Option.getD_none] at hd
          exact absurd hd (by decide)
        | some w =>
          rw [hl, Option.getD_some] at hd
          exact Or.inr ⟨w, rfl, hd⟩
    · exact ih (enrich_step args kv0) hndrest kv hmem

theorem enrich_step_fixed (l : List (String × Value)) (args : Args)
    (hnd : (l.map Prod.fst).Nodup) :
    ∀ kv ∈ l, enrich_step (l.foldl enrich_step args) kv = l.foldl enrich_step args := by
  intro kv hkv
  rcases enrich_foldl_final_value l args hnd kv hkv with hsome | ⟨w, hw, hdw⟩
  · simp only [enrich_step, hsome, Option.getD_some]
    split
    · exact dictSet_of_lookup_eq _ kv.1 kv.2 hsome
    · rfl
  · simp [enrich_step, hw, hdw]

theorem foldl_fixed {α β : Type} (f : α → β → α) (s : α) :
    ∀ l : List β, (∀ x ∈ l, f s x = s) → l.foldl f s = s := by
  intro l
  induction l with
  | nil => intro _; rfl
  | cons x xs ih =>
    intro h
    rw [List.foldl_cons, h x (List.mem_cons_self x xs)]
    exact ih (fun y hy => h y (List.mem_cons_of_mem x hy))

/-- C6: argument enrichment is idempotent — re-applying it to its own
output with the same tool name and utterance text is a fixed point
(the extractor's output keys are unique, as a Python dict's are). -/
theorem enrich_arguments_idempotent
    (extractors : String → Option (String → Args)) (tool : String)
    (args : Args) (user_text : String)
    (hkeys : ∀ f, extractors tool = some f → ((f user_text).map Prod.fst).Nodup) :
    _enrich_arguments extractors tool
        (_enrich_arguments extractors tool args user_text) user_text
      = _enrich_arguments extractors tool args user_text := by
  rw [_enrich_arguments, _enrich_arguments]
  cases he : extractors tool with
  | none => rfl
  | some f =>
    exact foldl_fixed enrich_step _ (f user_text)
      (enrich_step_fixed (f user_text) args (hkeys f he))

theorem enrich_arguments_idempotent_witness :
    _enrich_arguments (fun _ => some (fun _ => [("job_type", Value.vStr "general")]))
        "generate_checklist"
        (_enrich_arguments
          (fun _ => some (fun _ => [("job_type", Value.vStr "general")]))
          "generate_checklist" [] "make a checklist") "make a checklist"
      = _enrich_arguments
          (fun _ => some (fun _ => [("job_type", Value.vStr "general")]))
          "generate_checklist" [] "make a checklist" :=
  enrich_arguments_idempotent _ _ _ _
    (fun f hf => by rw [← Option.some.inj hf]; decide)

theorem contains_true_iff_mem {α : Type} [BEq α] [LawfulBEq α] {l : List α} {a : α} :
    l.contains a = true ↔ a ∈ l := by
  simp [List.contains_eq_any_beq]

theorem run_fallback_rules_calls (search : String → String → Bool)
    (user_text text_lower : String) (tool_names : List String) :
    ∀ rules : List FallbackRule,
      (run_fallback_rules search user_text text_lower tool_names rules).1
        = (rules.filter (fun r =>
            tool_names.contains r.tool_name && search r.pattern text_lower)).map
            (fun r => (⟨r.tool_name, r.extractor user_text⟩ : Call)) := by
  intro rules
  induction rules with
  | nil => rfl
  | cons r rest ih =>
    simp only [run_fallback_rules, List.filter_cons]
    cases hg : (tool_names.contains r.tool_name && search r.pattern text_lower) with
    | true =>
      rw [if_pos rfl, if_pos rfl, List.map_cons]
      show (⟨r.tool_name, r.extractor user_text⟩ : Call)
          :: (run_fallback_rules search user_text text_lower tool_names rest).1 = _
      rw [ih]
    | false =>
      rw [if_neg Bool.false_ne_true, if_neg Bool.false_ne_true]
      exact ih

theorem countP_rules_distinct :
    ∀ (rules : List FallbackRule) (g : FallbackRule → Bool) (r0 : FallbackRule),
      rules.Pairwise (fun a b => a.tool_name ≠ b.tool_name) → r0 ∈ rules →
      rules.countP (fun r => r.tool_name == r0.tool_name && g r)
        = if g r0 then 1 else 0 := by
  intro rules g r0
  induction rules with
  | nil => intro _ h; simp at h
  | cons r rest ih =>
    intro hpw hmem
    rw [List.pairwise_cons] at hpw
    obtain ⟨hhead, htail⟩ := hpw
    rcases List.mem_cons.mp hmem with rfl | hmem'
    · have hzero : rest.countP (fun r' => r'.tool_name == r0.tool_name && g r') = 0 := by
        rw [List.countP_eq_zero]
        intro r' hr'
        simp [beq_eq_false_iff_ne.mpr (Ne.symm (hhead r' hr'))]
      simp [List.countP_cons, hzero]
    · have hne : (r.tool_name == r0.tool_name) = false :=
        beq_eq_false_iff_ne.mpr (hhead r0 hmem')
      simp [List.countP_cons, ih htail hmem', hne]

theorem fallback_patterns_distinct (ext : String → String → Args) :
    (fallback_patterns ext).Pairwise (fun a b => a.tool_name ≠ b.tool_name) := by
  have h : ((fallback_patterns ext).map (fun r => r.tool_name)).Pairwise (· ≠ ·) := by
    show (["diagnose_lock_fault", "log_service_report", "generate_checklist",
      "lookup_part", "schedule_followup", "contact_dispatch",
      "generate_invoice"] : List String).Pairwise (· ≠ ·)
    decide
  exact List.pairwise_map.mp h

theorem keyword_fallback_countP (search : String → String → Bool)
    (ext : String → String → Args) (elapsed : ℚ)
    (messages : List Msg) (tools : List ToolSchema) :
    ∀ r ∈ fallback_patterns ext,
      (_keyword_fallback search ext elapsed messages tools).function_calls.countP
          (fun c => c.name == r.tool_name)
        = if (tools.map (fun t => t.name)).contains r.tool_name
              && search r.pattern (pyLower (fallback_user_text messages))
          then 1 else 0 := by
  intro r hr
  have hcalls : (_keyword_fallback search ext elapsed messages tools).function_calls
      = (run_fallback_rules search (fallback_user_text messages)
          (pyLower (fallback_user_text messages))
          (tools.map (fun t => t.name)) (fallback_patterns ext)).1 := rfl
  rw [hcalls, run_fallback_rules_calls, List.countP_map, List.countP_filter]
  have hdist := countP_rules_distinct (fallback_patterns ext)
    (fun r' => (tools.map (fun t => t.name)).contains r'.tool_name
      && search r'.pattern (pyLower (fallback_user_text messages)))
    r (fallback_patterns_distinct ext) hr
  exact (countP_congr_mem _ _ _ (fun x _ => rfl)).trans hdist

/-- C7: every call the keyword fallback emits names a tool of the
supplied catalog; a catalog tool with an activation rule contributes
exactly one call iff its pattern matches the lower-cased concatenation
of the user-role message contents; and a tool absent from the catalog
never produces a call even when its pattern matches. -/
theorem keyword_fallback_gating (search : String → String → Bool)
    (ext : String → String → Args) (elapsed : ℚ)
    (messages : List Msg) (tools : List ToolSchema) :
    (∀ c ∈ (_keyword_fallback search ext elapsed messages tools).function_calls,
        c.name ∈ tools.map (fun t => t.name))
    ∧ (∀ r ∈ fallback_patterns ext,
        ((_keyword_fallback search ext elapsed messages tools).function_calls.countP
            (fun c => c.name == r.tool_name) = 1
          ↔ (r.tool_name ∈ tools.map (fun t => t.name)
              ∧ search r.pattern (pyLower (fallback_user_text messages)) = true)))
    ∧ (∀ r ∈ fallback_patterns ext, r.tool_name ∉ tools.map (fun t => t.name) →
        (_keyword_fallback search ext elapsed messages tools).function_calls.countP
          (fun c => c.name == r.tool_name) = 0) := by
  have hcalls : (_keyword_fallback search ext elapsed messages tools).function_calls
      = (run_fallback_rules search (fallback_user_text messages)
          (pyLower (fallback_user_text messages))
          (tools.map (fun t => t.name)) (fallback_patterns ext)).1 := rfl
  refine ⟨?_, ?_, ?_⟩
  · intro c hc
    rw [hcalls, run_fallback_rules_calls] at hc
    obtain ⟨r, hrmem, hrc⟩ := List.mem_map.mp hc
    obtain ⟨hrfil, hg⟩ := List.mem_filter.mp hrmem
    rw [Bool.and_eq_true] at hg
    rw [← hrc]
    exact contains_true_iff_mem.mp hg.1
  · intro r hr
    rw [keyword_fallback_countP search ext elapsed messages tools r hr]
    cases hcont : (tools.map (fun t => t.name)).contains r.tool_name with
    | true =>
      cases hs : search r.pattern (pyLower (fallback_user_text messages)) with
      | true => simp [contains_true_iff_mem.mp hcont]
      | false => simp [hs]
    | false =>
      have hnm : r.tool_name ∉ tools.map (fun t => t.name) := by
        intro hin
        rw [contains_true_iff_mem.mpr hin] at hcont
        exact Bool.noConfusion hcont
      simp [hnm]
  · intro r hr hnm
    rw [keyword_fallback_countP search ext elapsed messages tools r hr]
    have hcont : (tools.map (fun t => t.name)).contains r.tool_name = false := by
      cases hc : (tools.map (fun t => t.name)).contains r.tool_name with
      | false => rfl
      | true => exact absurd (contains_true_iff_mem.mp hc) hnm
    rw [hcont, Bool.false_and, if_neg Bool.false_ne_true]

/-- C8 (amended): the hybrid endpoint appends, per executed call, one
history entry carrying the call's name, arguments, result, timestamp,
source tag and measured latency — its history grows by exactly the
number of executed calls; the voice endpoint, although it also executes
its resolved calls, appends nothing to the history. -/
theorem history_append_policy (search : String → String → Bool)
    (ext : String → String → Args) (execute : String → Args → ToolResult)
    (timestamp : String) (router : Option RouterOutput) (fb_elapsed elapsed : ℚ)
    (messages : List Msg) (req_tools : Option (List ToolSchema))
    (routing_ms : ℚ) (transcribe_text : String) (transcribe_ms : ℚ)
    (history : List HistoryEntry) :
    ((hybrid_endpoint search ext execute timestamp router fb_elapsed elapsed
          messages req_tools history).1
        = history
          ++ (hybrid_endpoint search ext execute timestamp router fb_elapsed elapsed
              messages req_tools history).2.function_calls.map (fun e =>
              ({ name := e.name, arguments := e.arguments, result := e.result,
                 timestamp := timestamp,
                 source := (hybrid_endpoint search ext execute timestamp router fb_elapsed
                     elapsed messages req_tools history).2.source,
                 latency_ms := (hybrid_endpoint search ext execute timestamp router fb_elapsed
                     elapsed messages req_tools history).2.latency_ms } : HistoryEntry))
      ∧ (hybrid_endpoint search ext execute timestamp router fb_elapsed elapsed
            messages req_tools history).1.length
          = history.length
            + (hybrid_endpoint search ext execute timestamp router fb_elapsed elapsed
                messages req_tools history).2.function_calls.length)
    ∧ (process_voice_endpoint search ext execute router fb_elapsed routing_ms
        transcribe_text transcribe_ms history).1 = history := by
  refine ⟨⟨rfl, ?_⟩, ?_⟩
  · simp only [hybrid_endpoint, List.length_append, List.length_map]
  · rw [process_voice_endpoint]
    split
    · rfl
    · rfl

/-- C8 counterexample: a voice request whose router outcome resolves one
call executes it (the response carries one executed call) yet appends
nothing to the history, which stays empty. -/
theorem voice_executes_without_history_cex :
    ((process_voice_endpoint (fun _ _ => false) (fun _ _ => []) (fun _ _ => [])
        (some ⟨[⟨"generate_checklist", [("job_type", Value.vStr "general")]⟩],
          some 5, some "on-device"⟩)
        0 1 "run the rekey checklist" 0 []).2.function_calls.length = 1)
    ∧ (process_voice_endpoint (fun _ _ => false) (fun _ _ => []) (fun _ _ => [])
        (some ⟨[⟨"generate_checklist", [("job_type", Value.vStr "general")]⟩],
          some 5, some "on-device"⟩)
        0 1 "run the rekey checklist" 0 []).1 = [] := by
  exact ⟨rfl, rfl⟩

/-- C9 (amended): the hybrid endpoint reports the dispatcher's
wall-clock elapsed time whatever the primary router self-reports; the
voice endpoint, however, reports the router's self-reported
total_time_ms whenever that field is present, falling back to its own
wall-clock measurement only when it is absent. -/
theorem latency_reporting_policy (search : String → String → Bool)
    (ext : String → String → Args) (execute : String → Args → ToolResult)
    (timestamp : String) (router : Option RouterOutput) (rr : RouterOutput)
    (fb_elapsed elapsed routing_ms : ℚ)
    (messages : List Msg) (req_tools : Option (List ToolSchema))
    (transcribe_text : String) (transcribe_ms : ℚ) (history : List HistoryEntry) :
    ((hybrid_endpoint search ext execute timestamp router fb_elapsed elapsed
        messages req_tools history).2.latency_ms = pyRound1 elapsed)
    ∧ (transcribe_text ≠ "" →
        (process_voice_endpoint search ext execute (some rr) fb_elapsed routing_ms
            transcribe_text transcribe_ms history).2.routing_latency_ms
          = pyRound1 (rr.total_time_ms.getD routing_ms)) := by
  constructor
  · rfl
  · intro h
    rw [process_voice_endpoint, if_neg h]

/-- C9 counterexample: with a router outcome self-reporting 999 ms and a
dispatcher wall-clock of 1 ms, the voice endpoint reports 999, not the
wall-clock figure. -/
theorem voice_reports_router_time_cex :
    (process_voice_endpoint (fun _ _ => false) (fun _ _ => []) (fun _ _ => [])
        (some ⟨[], some 999, some "on-device"⟩) 0 1 "hello" 0 []).2.routing_latency_ms
      = 999
    ∧ pyRound1 1 = 1 ∧ (999 : ℚ) ≠ 1 := by
  refine ⟨?_, ?_, by norm_num⟩
  · have h : (process_voice_endpoint (fun _ _ => false) (fun _ _ => []) (fun _ _ => [])
        (some ⟨[], some 999, some "on-device"⟩) 0 1 "hello" 0 []).2.routing_latency_ms
        = pyRound1 999 := rfl
    rw [h, pyRound1]
    norm_num
  · rw [pyRound1]
    norm_num

/-- C10: when transcription yields empty text — which is also what the
failure and model-unavailable paths produce — the voice endpoint
returns an empty call list with source "none" and routing latency 0,
leaves the history untouched, and its output is the same whatever the
router, fallback matcher/extractor and tool executor oracles are: they
are never consulted. -/
theorem voice_empty_transcription_shortcircuit (search : String → String → Bool)
    (ext : String → String → Args) (execute : String → Args → ToolResult)
    (router : Option RouterOutput) (fb_elapsed routing_ms transcribe_ms : ℚ)
    (history : List HistoryEntry) :
    process_voice_endpoint search ext execute router fb_elapsed routing_ms
        "" transcribe_ms history
      = (history,
         { transcription := "", transcribe_latency_ms := pyRound1 transcribe_ms,
           function_calls := [], source := "none", routing_latency_ms := 0 }) := by
  rw [process_voice_endpoint, if_pos rfl]

example : compute_f1 [] [] = 1 := rfl
example :
    matchedLoop [⟨"get_weather", [("location", .vStr " London ")]⟩]
      [⟨"get_weather", [("location", .vStr "london")]⟩] [] = 1 := by decide
example :
    compute_f1 [⟨"get_weather", [("location", .vStr " London ")]⟩]
      [⟨"get_weather", [("location", .vStr "london")]⟩] = 1 := by
  have h : matchedLoop [⟨"get_weather", [("location", .vStr " London ")]⟩]
      [⟨"get_weather", [("location", .vStr "london")]⟩] [] = 1 := by decide
  simp only [compute_f1, h]
  norm_num
